import Mathlib

/-!
Shallow embedding of the Helios rate-limiting service (Go sources under
`internal/limiter`, `internal/store`, `internal/gateway`) together with the
theorems that settle the specification claims.

Modelling conventions:
* Go `float64` arithmetic is modelled over `ℚ` (the computations at issue
  stay far from binary rounding boundaries).
* Go `time.Time` is modelled as an absolute time in seconds (`ℚ`); the Redis
  Lua script works in milliseconds, as the source does.
* Go's `int64(float64)` conversion truncates toward zero; `truncQ` mirrors it.
* Per-key state maps (`map[string]*tokenBucket` etc.) are modelled as
  functions `String → Option _`; an `Allow` call returns the result together
  with the updated map.
-/

namespace Helios

/-! ## Definitions: shallow embedding of the Helios sources -/

/-- Truncation toward zero, mirroring Go's `int64(x)` conversion from
`float64` and the `time.Duration(x)` conversion. -/
def truncQ (q : ℚ) : ℤ := if q < 0 then ⌈q⌉ else ⌊q⌋

/-- `limiter.Config` (limiter/limiter.go). `window` is the duration in
seconds; `algorithm` is the Go string constant. -/
structure Config where
  limit : ℤ
  burst : ℤ
  window : ℚ
  algorithm : String
deriving DecidableEq, Repr

def AlgoTokenBucket : String := "token_bucket"

def AlgoSlidingWindow : String := "sliding_window"

/-- Normalisation performed at the top of every `Allow`/`GetQuota`:
`if window <= 0 { window = time.Minute }`. -/
def Config.effWindow (c : Config) : ℚ := if c.window ≤ 0 then 60 else c.window

/-- `if limit <= 0 { limit = 100 }`. -/
def Config.effLimit (c : Config) : ℤ := if c.limit ≤ 0 then 100 else c.limit

/-- `if burst <= 0 { burst = limit }` (after the limit normalisation). -/
def Config.effBurst (c : Config) : ℤ := if c.burst ≤ 0 then c.effLimit else c.burst

/-- `refillPerSec := float64(limit) / window.Seconds()`. -/
def Config.refillPerSec (c : Config) : ℚ := (c.effLimit : ℚ) / c.effWindow

/-- `tokenBucket` / `bucket`: per-key state of the in-memory token-bucket
limiters. -/
structure TokenBucket where
  tokens : ℚ
  lastRefill : ℚ
deriving DecidableEq, Repr

/-- `limiter.Result`. `resetTime` is an absolute time in seconds.
`RetryAfterSeconds` is zero when the field is left unset. -/
structure Result where
  allowed : Bool
  remaining : ℤ
  limit : ℤ
  resetTime : ℚ
  retryAfterSeconds : ℤ
deriving DecidableEq, Repr

/-- The limiters' `map[string]*tokenBucket`. -/
abbrev TBState := String → Option TokenBucket

/-- `TokenBucketLimiter.Allow` (limiter.go): lazily create the bucket at
burst capacity, refill by elapsed time capped at burst, charge `cost` when
`tokens >= cost`, and report `remaining`/`resetTime`/`retryAfter` with Go's
truncating conversions. -/
def tbAllow (cfg : Config) (st : TBState) (key : String) (cost : ℤ) (now : ℚ) :
    Result × TBState :=
  let burst := cfg.effBurst
  let r := cfg.refillPerSec
  let bucket := (st key).getD ⟨(burst : ℚ), now⟩
  let elapsed := now - bucket.lastRefill
  let tokens := min (burst : ℚ) (bucket.tokens + elapsed * r)
  let costQ : ℚ := (cost : ℚ)
  let allowed : Bool := decide (costQ ≤ tokens)
  let tokens' := if allowed then tokens - costQ else tokens
  let resetTime := now + ((truncQ ((costQ - tokens') / r) : ℤ) : ℚ)
  let retry := if allowed then 0 else truncQ (resetTime - now)
  (⟨allowed, truncQ tokens', cfg.effLimit, resetTime, retry⟩,
   fun k => if k = key then some ⟨tokens', now⟩ else st k)

/-- `TokenBucketLimiter.GetQuota` (limiter.go): refill only; `resetTime`
uses `(float64(limit) - tokens) / refillPerSec`. -/
def tbGetQuota (cfg : Config) (st : TBState) (key : String) (now : ℚ) :
    Result × TBState :=
  let burst := cfg.effBurst
  let r := cfg.refillPerSec
  let bucket := (st key).getD ⟨(burst : ℚ), now⟩
  let elapsed := now - bucket.lastRefill
  let tokens := min (burst : ℚ) (bucket.tokens + elapsed * r)
  let resetTime := now + ((truncQ (((cfg.effLimit : ℚ) - tokens) / r) : ℤ) : ℚ)
  (⟨true, truncQ tokens, cfg.effLimit, resetTime, 0⟩,
   fun k => if k = key then some ⟨tokens, now⟩ else st k)

/-- `basicLimiter.Allow` (basic_limiter.go): like `tbAllow` but the empty
key falls back to `"default"` and `resetTime` uses
`(float64(limit) - tokens) / refillPerSec`. -/
def basicAllow (cfg : Config) (st : TBState) (key : String) (cost : ℤ) (now : ℚ) :
    Result × TBState :=
  let tenant := if key = "" then "default" else key
  let burst := cfg.effBurst
  let r := cfg.refillPerSec
  let bucket := (st tenant).getD ⟨(burst : ℚ), now⟩
  let elapsed := now - bucket.lastRefill
  let tokens := min (burst : ℚ) (bucket.tokens + elapsed * r)
  let need : ℚ := (cost : ℚ)
  let allowed : Bool := decide (need ≤ tokens)
  let tokens' := if allowed then tokens - need else tokens
  let resetTime := now + ((truncQ (((cfg.effLimit : ℚ) - tokens') / r) : ℤ) : ℚ)
  let retry := if allowed then 0 else truncQ (resetTime - now)
  (⟨allowed, truncQ tokens', cfg.effLimit, resetTime, retry⟩,
   fun k => if k = tenant then some ⟨tokens', now⟩ else st k)

/-- Specification-level account of the refilled token count of `key` at
`now`: the stored bucket (or a fresh one at burst capacity) refilled at rate
`limit/window` and capped at the burst ceiling. -/
def tbRefilled (cfg : Config) (st : TBState) (key : String) (now : ℚ) : ℚ :=
  let b := (st key).getD ⟨(cfg.effBurst : ℚ), now⟩
  min (cfg.effBurst : ℚ) (b.tokens + (now - b.lastRefill) * cfg.refillPerSec)

/-- Specification-level post-operation token count: refill, then charge
`cost` exactly when the refilled count covers it. -/
def tbPostTokens (cfg : Config) (st : TBState) (key : String) (cost : ℤ) (now : ℚ) : ℚ :=
  let tk := tbRefilled cfg st key now
  if (cost : ℚ) ≤ tk then tk - (cost : ℚ) else tk

/-- The sliding-window limiter's `map[string]*slidingWindow`: per key, the
list of event timestamps in insertion order. -/
abbrev SWState := String → Option (List ℚ)

/-- `SlidingWindowLimiter.Allow` (sliding-window limiter source): purge
entries with `t <= now - window` (keep `reqTime.After(windowStart)`), deny
when `currentCount + cost > limit` (reporting the oldest retained entry's
expiry), otherwise append `cost` copies of `now`. -/
def swAllow (cfg : Config) (st : SWState) (key : String) (cost : ℤ) (now : ℚ) :
    Result × SWState :=
  let window := cfg.effWindow
  let limit := cfg.effLimit
  let windowStart := now - window
  let reqs := (st key).getD []
  let valid := reqs.filter (fun t => windowStart < t)
  let cur : ℤ := valid.length
  if limit < cur + cost then
    let resetTime :=
      match valid with
      | [] => now + window
      | t :: _ => t + window
    (⟨false, max 0 (limit - cur), limit, resetTime, truncQ (resetTime - now)⟩,
     fun k => if k = key then some valid else st k)
  else
    let valid' := valid ++ List.replicate cost.toNat now
    (⟨true, limit - cur - cost, limit, now + window, 0⟩,
     fun k => if k = key then some valid' else st k)

/-- `tonumber(bucket[1]) or burst`: a missing hash yields a full bucket. -/
def redisStoredTokens (stored : Option TokenBucket) (burst : ℤ) : ℚ :=
  match stored with | some b => b.tokens | none => (burst : ℚ)

/-- `tonumber(bucket[2]) or now`. -/
def redisStoredLast (stored : Option TokenBucket) (nowMs : ℚ) : ℚ :=
  match stored with | some b => b.lastRefill | none => nowMs

/-- `Client.TokenBucketAllow`'s Lua script (store/redis.go), executed
atomically on the shared store. Times are in milliseconds. Returns
`(allowed, remaining tokens, reset time in ms)` together with the bucket
state written back (`HMSET key tokens last_refill`); the state is written —
with `last_refill = now` — on both branches. -/
def redisTBAllow (stored : Option TokenBucket) (nowMs : ℚ)
    (limit window cost burst : ℤ) : (Bool × ℚ × ℚ) × TokenBucket :=
  let tokens0 := redisStoredTokens stored burst
  let lastRefill := redisStoredLast stored nowMs
  let elapsed := (nowMs - lastRefill) / 1000
  let tokens := min (tokens0 + elapsed * (limit : ℚ) / (window : ℚ)) (burst : ℚ)
  if (cost : ℚ) ≤ tokens then
    let tokens' := tokens - (cost : ℚ)
    ((true, tokens', nowMs + (window : ℚ) * 1000), ⟨tokens', nowMs⟩)
  else
    let retryAfter := ⌈((cost : ℚ) - tokens) * (window : ℚ) / (limit : ℚ)⌉
    ((false, tokens, nowMs + (retryAfter : ℚ) * 1000), ⟨tokens, nowMs⟩)

/-- `LocalManager` (limiter manager source) holds a single limiter built
once from the default config; modelled by the algorithm selected at
construction plus that config. -/
structure Engine where
  isSlidingWindow : Bool
  cfg : Config
deriving DecidableEq, Repr

structure LocalManager where
  cfg : Config
  limiter : Engine
deriving DecidableEq, Repr

/-- `NewLocalManager`: `case AlgoSlidingWindow` picks the sliding-window
limiter, everything else defaults to the token bucket. -/
def NewLocalManager (defaultCfg : Config) : LocalManager :=
  ⟨defaultCfg,
   if defaultCfg.algorithm = AlgoSlidingWindow then ⟨true, defaultCfg⟩
   else ⟨false, defaultCfg⟩⟩

/-- `LocalManager.ForTenant` returns the one stored limiter, for any tenant. -/
def LocalManager.ForTenant (m : LocalManager) (_tenant : String) : Engine :=
  m.limiter

/-- `LocalManager.GetLimiter` returns the one stored limiter, for any
`(tenant, resource)` (the error result is always nil). -/
def LocalManager.GetLimiter (m : LocalManager) (_tenant _resource : String) : Engine :=
  m.limiter

/-- The demo default policy installed by `NewServer`:
`limiter.Config{Limit: 100, Burst: 100, Window: time.Minute, Algorithm: AlgoTokenBucket}`. -/
def gatewayCfg : Config := ⟨100, 100, 60, AlgoTokenBucket⟩

/-- The gateway manager built at startup. -/
def gatewayManager : LocalManager := NewLocalManager gatewayCfg

/-- `key := fmt.Sprintf("%s:%s:%s", tenant, resource, apiKey)`. -/
def composeKey (tenant resource apiKey : String) : String :=
  tenant ++ ":" ++ resource ++ ":" ++ apiKey

/-- The hard-coded demo credential set accepted by `handleAllow`. -/
def validApiKey (k : String) : Bool :=
  k = "test-key" ∨ k = "demo-key" ∨ k = "admin-key"

/-- An incoming `/allow` request: query parameters and the `X-API-Key`
header; absent parameters are the empty string, exactly as `c.Query`
reports them. -/
structure AllowRequest where
  tenant : String
  headerApiKey : String
  queryApiKey : String
  resource : String
  cost : String
deriving DecidableEq, Repr

/-- The responses `handleAllow` can produce, tagged with their HTTP status. -/
inductive HttpResponse
  | badRequest (msg : String)
  | unauthorized (msg : String)
  | tooManyRequests (retryAfterSeconds : ℤ)
  | ok (remaining limit : ℤ) (resetTime : ℚ)
deriving DecidableEq, Repr

def HttpResponse.status : HttpResponse → ℕ
  | .badRequest _ => 400
  | .unauthorized _ => 401
  | .tooManyRequests _ => 429
  | .ok _ _ _ => 200

/-- Gateway server state: the configured consistency mode, whether the
Shared Store (Redis) is reachable, and the local manager's single
token-bucket state. `storeUp` is recorded because `s.redisStore` exists on
the server; the admit path never consults it. -/
structure Server where
  mode : String
  storeUp : Bool
  state : TBState

/-- Decimal digit accumulation used by `atoi`. -/
def parseDigits : List Char → ℕ → Option ℕ
  | [], acc => some acc
  | c :: rest, acc =>
    if c.isDigit then parseDigits rest (acc * 10 + (c.toNat - 48)) else none

/-- `strconv.Atoi`: an optional sign followed by at least one decimal digit
(overflow aside, which no claim exercises). -/
def atoi (s : String) : Option ℤ :=
  match s.toList with
  | [] => none
  | '-' :: rest => if rest = [] then none else (parseDigits rest 0).map (fun n => -(n : ℤ))
  | '+' :: rest => if rest = [] then none else (parseDigits rest 0).map (fun n => (n : ℤ))
  | cs => (parseDigits cs 0).map (fun n => (n : ℤ))

/-- Cost parsing in `handleAllow`: absent (`""`) defaults to 1; otherwise
`strconv.Atoi` must succeed with a positive value, else the request is
`invalid cost parameter`. -/
def parseCost (s : String) : Option ℤ :=
  if s = "" then some 1
  else match atoi s with
    | some n => if 0 < n then some n else none
    | none => none

/-- `Server.handleAllow` (gateway/server.go): validate tenant, resolve the
api key from header then query, check the demo credential set, default the
resource, parse the cost, then run the local token-bucket limiter on the
colon-composed key. On deny the handler recomputes `Retry-After` from the
result's reset time, clamped at zero. The Shared Store is never consulted,
whatever `mode` and `storeUp` are. -/
def handleAllow (s : Server) (req : AllowRequest) (now : ℚ) : HttpResponse × Server :=
  if req.tenant = "" then (.badRequest "tenant parameter is required", s)
  else
    let apiKey := if req.headerApiKey = "" then req.queryApiKey else req.headerApiKey
    if apiKey = "" then (.unauthorized "API key required", s)
    else if ¬ validApiKey apiKey then (.unauthorized "Invalid API key", s)
    else
      let resource := if req.resource = "" then "default" else req.resource
      match parseCost req.cost with
      | none => (.badRequest "invalid cost parameter", s)
      | some cost =>
        let key := composeKey req.tenant resource apiKey
        let out := tbAllow gatewayCfg s.state key cost now
        let res := out.1
        let s' : Server := ⟨s.mode, s.storeUp, out.2⟩
        if res.allowed then
          (.ok res.remaining res.limit res.resetTime, s')
        else
          (.tooManyRequests (max 0 (truncQ (res.resetTime - now))), s')

end Helios

namespace Helios

/-- Well-formedness of a token-bucket map at time bound `t`: every stored
bucket has `0 ≤ tokens ≤ B` and a last-refill stamp no later than `t`. -/
def tbWF (B : ℤ) (t : ℚ) (st : TBState) : Prop :=
  ∀ k b, st k = some b → 0 ≤ b.tokens ∧ b.tokens ≤ (B : ℚ) ∧ b.lastRefill ≤ t

/-- An operation against the in-memory token-bucket limiter. -/
inductive TBOp where
  | allow (key : String) (cost : ℤ) (now : ℚ)
  | quota (key : String) (now : ℚ)

def TBOp.time : TBOp → ℚ
  | .allow _ _ n => n
  | .quota _ n => n

/-- Cost admissibility: admits carry a non-negative cost. -/
def TBOp.costOK : TBOp → Prop
  | .allow _ c _ => 0 ≤ c
  | .quota _ _ => True

def tbExec (cfg : Config) (st : TBState) : TBOp → TBState
  | .allow k c n => (tbAllow cfg st k c n).2
  | .quota k n => (tbGetQuota cfg st k n).2

def tbRun (cfg : Config) (st : TBState) : List TBOp → TBState
  | [] => st
  | op :: rest => tbRun cfg (tbExec cfg st op) rest

/-- The operations' timestamps are non-decreasing, starting at `t0`, and
every admit cost is non-negative. -/
def opsOK (t0 : ℚ) : List TBOp → Prop
  | [] => True
  | op :: rest => t0 ≤ op.time ∧ op.costOK ∧ opsOK op.time rest

def opsEnd (t0 : ℚ) : List TBOp → ℚ
  | [] => t0
  | op :: rest => opsEnd op.time rest

/-- The purged event list: entries with `t ≤ now − window` dropped
(`reqTime.After(windowStart)` keeps exactly `now − window < t`). -/
def swPurged (cfg : Config) (st : SWState) (key : String) (now : ℚ) : List ℚ :=
  ((st key).getD []).filter (fun t => now - cfg.effWindow < t)

/-- The deny-branch reset time: the oldest retained entry's expiry, or
`now + window` when nothing is retained. -/
def swOldestReset (cfg : Config) (st : SWState) (key : String) (now : ℚ) : ℚ :=
  match swPurged cfg st key now with
  | [] => now + cfg.effWindow
  | t :: _ => t + cfg.effWindow

/-- The S1/S2 scenario policy `{limit:5, window:60 s, burst:5}`. -/
def cfg5 : Config := ⟨5, 5, 60, AlgoTokenBucket⟩

/-- A single bucket at key `"k"` emptied at `t = 0` (the state after the
five S1 admits). -/
def stEmptied : TBState := fun k => if k = "k" then some ⟨0, 0⟩ else none

/-- A sliding-window policy `{limit:1, window:60 s}`. -/
def cfgSW : Config := ⟨1, 0, 60, AlgoSlidingWindow⟩

/-- One sliding-window event at `t = 0` under key `"k"`. -/
def stSW : SWState := fun k => if k = "k" then some [0] else none

/-- A gateway server in fast mode with a reachable store and no buckets. -/
def srv0 : Server := ⟨"fast", true, fun _ => none⟩

/-! ## Theorems -/

@[simp] theorem truncQ_intCast (n : ℤ) : truncQ (n : ℚ) = n := by
  unfold truncQ
  split <;> simp

theorem truncQ_nonneg {q : ℚ} (h : 0 ≤ q) : truncQ q = ⌊q⌋ := by
  unfold truncQ
  split
  · linarith
  · rfl

theorem effLimit_pos (c : Config) : 0 < c.effLimit := by
  unfold Config.effLimit
  split <;> omega

theorem effBurst_pos (c : Config) : 0 < c.effBurst := by
  unfold Config.effBurst
  split
  · exact effLimit_pos c
  · omega

theorem effWindow_pos (c : Config) : 0 < c.effWindow := by
  unfold Config.effWindow
  split
  · norm_num
  · linarith [not_le.mp (by assumption : ¬ c.window ≤ 0)]

theorem refillPerSec_pos (c : Config) : 0 < c.refillPerSec :=
  div_pos (by exact_mod_cast effLimit_pos c) (effWindow_pos c)

theorem tbAllow_fst (cfg : Config) (st : TBState) (key : String) (cost : ℤ) (now : ℚ) :
    (tbAllow cfg st key cost now).1 =
      ⟨decide ((cost : ℚ) ≤ tbRefilled cfg st key now),
       truncQ (tbPostTokens cfg st key cost now),
       cfg.effLimit,
       now + ((truncQ (((cost : ℚ) - tbPostTokens cfg st key cost now) / cfg.refillPerSec) : ℤ) : ℚ),
       if (cost : ℚ) ≤ tbRefilled cfg st key now then 0
       else truncQ (((cost : ℚ) - tbPostTokens cfg st key cost now) / cfg.refillPerSec)⟩ := by
  by_cases h : (cost : ℚ) ≤ tbRefilled cfg st key now
  · simp [tbAllow, tbRefilled, tbPostTokens, h] at h ⊢
  · simp [tbAllow, tbRefilled, tbPostTokens, h] at h ⊢

theorem tbAllow_snd (cfg : Config) (st : TBState) (key : String) (cost : ℤ) (now : ℚ) :
    (tbAllow cfg st key cost now).2 =
      fun k => if k = key then some ⟨tbPostTokens cfg st key cost now, now⟩ else st k := by
  funext k
  by_cases h : (cost : ℚ) ≤ tbRefilled cfg st key now
  · simp [tbAllow, tbRefilled, tbPostTokens, h] at h ⊢
  · simp [tbAllow, tbRefilled, tbPostTokens, h] at h ⊢

theorem tbGetQuota_snd (cfg : Config) (st : TBState) (key : String) (now : ℚ) :
    (tbGetQuota cfg st key now).2 =
      fun k => if k = key then some ⟨tbRefilled cfg st key now, now⟩ else st k := by
  funext k
  simp [tbGetQuota, tbRefilled]

/-- A zero-cost charge is a no-op: the post-operation count is the refilled
count on both branches. -/
theorem tbPostTokens_zero (cfg : Config) (st : TBState) (key : String) (now : ℚ) :
    tbPostTokens cfg st key 0 now = tbRefilled cfg st key now := by
  simp only [tbPostTokens, Int.cast_zero, sub_zero]
  split <;> rfl

theorem tbRefilled_le_burst (cfg : Config) (st : TBState) (key : String) (now : ℚ) :
    tbRefilled cfg st key now ≤ (cfg.effBurst : ℚ) := by
  simp only [tbRefilled]
  exact min_le_left _ _

theorem tbRefilled_none (cfg : Config) (st : TBState) (key : String) (now : ℚ)
    (hst : st key = none) : tbRefilled cfg st key now = (cfg.effBurst : ℚ) := by
  simp [tbRefilled, hst]

theorem tbRefilled_nonneg (cfg : Config) (st : TBState) (key : String) (now : ℚ)
    (h : ∀ b, st key = some b → 0 ≤ b.tokens ∧ b.lastRefill ≤ now) :
    0 ≤ tbRefilled cfg st key now := by
  have hB : (0 : ℚ) ≤ (cfg.effBurst : ℚ) := by exact_mod_cast (effBurst_pos cfg).le
  rcases hst : st key with _ | b
  · rw [tbRefilled_none cfg st key now hst]
    exact hB
  · obtain ⟨ht, hl⟩ := h b hst
    have hr : 0 ≤ (now - b.lastRefill) * cfg.refillPerSec :=
      mul_nonneg (by linarith) (refillPerSec_pos cfg).le
    simp only [tbRefilled, hst, Option.getD_some]
    exact le_min hB (by linarith)

theorem tbPostTokens_nonneg (cfg : Config) (st : TBState) (key : String) (cost : ℤ) (now : ℚ)
    (h : ∀ b, st key = some b → 0 ≤ b.tokens ∧ b.lastRefill ≤ now) :
    0 ≤ tbPostTokens cfg st key cost now := by
  have := tbRefilled_nonneg cfg st key now h
  simp only [tbPostTokens]
  split
  · linarith
  · exact this

theorem tbPostTokens_le_burst (cfg : Config) (st : TBState) (key : String) (cost : ℤ) (now : ℚ)
    (hc : 0 ≤ cost) :
    tbPostTokens cfg st key cost now ≤ (cfg.effBurst : ℚ) := by
  have hle := tbRefilled_le_burst cfg st key now
  have hcq : (0 : ℚ) ≤ (cost : ℚ) := by exact_mod_cast hc
  simp only [tbPostTokens]
  split
  · linarith
  · exact hle

/-- Capped-refill absorption: refilling in two steps (capping in between)
is refilling once, as long as the second increment is non-negative. -/
theorem min_refill_absorb (B x d : ℚ) (hd : 0 ≤ d) :
    min B (min B x + d) = min B (x + d) := by
  rcases le_total x B with h | h
  · rw [min_eq_right h]
  · rw [min_eq_left h, min_eq_left (by linarith), min_eq_left (by linarith)]

/-- Refilling at `t2` after a refill-only write at `t1 ≤ t2` yields the same
count as refilling directly at `t2`. -/
theorem tbRefilled_after_probe (cfg : Config) (st : TBState) (key : String) (t1 t2 : ℚ)
    (h12 : t1 ≤ t2) :
    tbRefilled cfg (fun k => if k = key then some ⟨tbRefilled cfg st key t1, t1⟩ else st k)
        key t2
      = tbRefilled cfg st key t2 := by
  have hd : 0 ≤ (t2 - t1) * cfg.refillPerSec :=
    mul_nonneg (by linarith) (refillPerSec_pos cfg).le
  rcases hst : st key with _ | b
  · rw [tbRefilled_none cfg st key t2 hst]
    rw [tbRefilled_none cfg st key t1 hst]
    simp only [tbRefilled, eq_self_iff_true, if_true, Option.getD_some]
    exact min_eq_left (by linarith)
  · have hx : b.tokens + (t1 - b.lastRefill) * cfg.refillPerSec
        + (t2 - t1) * cfg.refillPerSec
        = b.tokens + (t2 - b.lastRefill) * cfg.refillPerSec := by ring
    simp only [tbRefilled, hst, Option.getD_some, eq_self_iff_true, if_true]
    rw [min_refill_absorb _ _ _ hd, hx]

/-- A zero-cost admit commutes away: running any admit at `t2` after a
zero-cost admit at `t1 ≤ t2` gives the same result and state as running it
directly on the original state. -/
theorem tbAllow_after_zero_probe (cfg : Config) (st : TBState) (key : String) (c : ℤ)
    (t1 t2 : ℚ) (h12 : t1 ≤ t2) :
    tbAllow cfg ((tbAllow cfg st key 0 t1).2) key c t2 = tbAllow cfg st key c t2 := by
  have hst' : (tbAllow cfg st key 0 t1).2 =
      fun k => if k = key then some ⟨tbRefilled cfg st key t1, t1⟩ else st k := by
    rw [tbAllow_snd, tbPostTokens_zero]
  have href := tbRefilled_after_probe cfg st key t1 t2 h12
  have hpost : tbPostTokens cfg
      (fun k => if k = key then some ⟨tbRefilled cfg st key t1, t1⟩ else st k) key c t2
      = tbPostTokens cfg st key c t2 := by
    simp only [tbPostTokens, href]
  rw [hst']
  refine Prod.ext ?_ ?_
  · rw [tbAllow_fst, tbAllow_fst, href, hpost]
  · rw [tbAllow_snd, tbAllow_snd, hpost]
    funext k
    by_cases hk : k = key
    · simp [hk]
    · simp [hk]

theorem tbWF_exec (cfg : Config) (t0 : ℚ) (st : TBState) (op : TBOp)
    (hWF : tbWF cfg.effBurst t0 st) (ht : t0 ≤ op.time) (hc : op.costOK) :
    tbWF cfg.effBurst op.time (tbExec cfg st op) := by
  cases op with
  | allow k c n =>
    intro k' b' hb'
    simp only [tbExec, tbAllow_snd] at hb'
    simp only [TBOp.time] at ht ⊢
    by_cases hk : k' = k
    · rw [if_pos hk] at hb'
      obtain rfl : (⟨tbPostTokens cfg st k c n, n⟩ : TokenBucket) = b' :=
        Option.some_injective _ hb'
      have hbound : ∀ b, st k = some b → 0 ≤ b.tokens ∧ b.lastRefill ≤ n := by
        intro b hb
        obtain ⟨h1, _, h3⟩ := hWF k b hb
        exact ⟨h1, le_trans h3 ht⟩
      exact ⟨tbPostTokens_nonneg cfg st k c n hbound,
        tbPostTokens_le_burst cfg st k c n hc, le_refl n⟩
    · rw [if_neg hk] at hb'
      obtain ⟨h1, h2, h3⟩ := hWF k' b' hb'
      exact ⟨h1, h2, le_trans h3 ht⟩
  | quota k n =>
    intro k' b' hb'
    simp only [tbExec, tbGetQuota_snd] at hb'
    simp only [TBOp.time] at ht ⊢
    by_cases hk : k' = k
    · rw [if_pos hk] at hb'
      obtain rfl : (⟨tbRefilled cfg st k n, n⟩ : TokenBucket) = b' :=
        Option.some_injective _ hb'
      have hbound : ∀ b, st k = some b → 0 ≤ b.tokens ∧ b.lastRefill ≤ n := by
        intro b hb
        obtain ⟨h1, _, h3⟩ := hWF k b hb
        exact ⟨h1, le_trans h3 ht⟩
      exact ⟨tbRefilled_nonneg cfg st k n hbound,
        tbRefilled_le_burst cfg st k n, le_refl n⟩
    · rw [if_neg hk] at hb'
      obtain ⟨h1, h2, h3⟩ := hWF k' b' hb'
      exact ⟨h1, h2, le_trans h3 ht⟩

theorem tbWF_run (cfg : Config) : ∀ (ops : List TBOp) (t0 : ℚ) (st : TBState),
    tbWF cfg.effBurst t0 st → opsOK t0 ops →
    tbWF cfg.effBurst (opsEnd t0 ops) (tbRun cfg st ops) := by
  intro ops
  induction ops with
  | nil =>
    intro t0 st h _
    simpa [tbRun, opsEnd] using h
  | cons op rest ih =>
    intro t0 st h hOK
    obtain ⟨h1, h2, h3⟩ := hOK
    simp only [tbRun, opsEnd]
    exact ih op.time _ (tbWF_exec cfg t0 st op h h1 h2) h3

/-- `last_refill` never decreases across a single operation. -/
theorem tbExec_lastRefill_mono (cfg : Config) (t0 : ℚ) (st : TBState) (op : TBOp)
    (hWF : tbWF cfg.effBurst t0 st) (ht : t0 ≤ op.time) :
    ∀ k b b', st k = some b → tbExec cfg st op k = some b' →
      b.lastRefill ≤ b'.lastRefill := by
  cases op with
  | allow k0 c n =>
    intro k b b' hb hb'
    simp only [tbExec, tbAllow_snd] at hb'
    simp only [TBOp.time] at ht
    by_cases hk : k = k0
    · rw [if_pos hk] at hb'
      obtain rfl : (⟨tbPostTokens cfg st k0 c n, n⟩ : TokenBucket) = b' :=
        Option.some_injective _ hb'
      obtain ⟨_, _, h3⟩ := hWF k b hb
      exact le_trans h3 ht
    · rw [if_neg hk] at hb'
      rw [hb] at hb'
      obtain rfl := Option.some_injective _ hb'
      exact le_refl _
  | quota k0 n =>
    intro k b b' hb hb'
    simp only [tbExec, tbGetQuota_snd] at hb'
    simp only [TBOp.time] at ht
    by_cases hk : k = k0
    · rw [if_pos hk] at hb'
      obtain rfl : (⟨tbRefilled cfg st k0 n, n⟩ : TokenBucket) = b' :=
        Option.some_injective _ hb'
      obtain ⟨_, _, h3⟩ := hWF k b hb
      exact le_trans h3 ht
    · rw [if_neg hk] at hb'
      rw [hb] at hb'
      obtain rfl := Option.some_injective _ hb'
      exact le_refl _

/-- The scripted path writes `last_refill = now` on both branches, denial
included. -/
theorem redisTBAllow_lastRefill (stored : Option TokenBucket) (nowMs : ℚ)
    (limit window cost burst : ℤ) :
    ((redisTBAllow stored nowMs limit window cost burst).2).lastRefill = nowMs := by
  simp only [redisTBAllow]
  split <;> rfl

theorem redisStoredTokens_nonneg (stored : Option TokenBucket) (burst : ℤ)
    (hb : 0 ≤ burst) (hs : ∀ b, stored = some b → 0 ≤ b.tokens) :
    0 ≤ redisStoredTokens stored burst := by
  rcases stored with _ | b
  · simp only [redisStoredTokens]
    exact_mod_cast hb
  · exact hs b rfl

theorem redisStoredLast_le (stored : Option TokenBucket) (nowMs : ℚ)
    (hs : ∀ b, stored = some b → b.lastRefill ≤ nowMs) :
    redisStoredLast stored nowMs ≤ nowMs := by
  rcases stored with _ | b
  · exact le_refl _
  · exact hs b rfl

theorem redisTBAllow_tokens_bounds (stored : Option TokenBucket) (nowMs : ℚ)
    (limit window cost burst : ℤ)
    (hlim : 0 < limit) (hwin : 0 < window) (hcost : 0 ≤ cost) (hburst : 0 ≤ burst)
    (hstored : ∀ b, stored = some b → 0 ≤ b.tokens ∧ b.lastRefill ≤ nowMs) :
    0 ≤ ((redisTBAllow stored nowMs limit window cost burst).2).tokens ∧
      ((redisTBAllow stored nowMs limit window cost burst).2).tokens ≤ (burst : ℚ) := by
  have hburstq : (0 : ℚ) ≤ (burst : ℚ) := by exact_mod_cast hburst
  have hcq : (0 : ℚ) ≤ (cost : ℚ) := by exact_mod_cast hcost
  have htok0 : 0 ≤ redisStoredTokens stored burst :=
    redisStoredTokens_nonneg stored burst hburst (fun b hb => (hstored b hb).1)
  have hlast : redisStoredLast stored nowMs ≤ nowMs :=
    redisStoredLast_le stored nowMs (fun b hb => (hstored b hb).2)
  have hrate : (0 : ℚ) ≤ (limit : ℚ) / (window : ℚ) :=
    div_nonneg (by exact_mod_cast hlim.le) (by exact_mod_cast hwin.le)
  have hd : 0 ≤ (nowMs - redisStoredLast stored nowMs) / 1000
      * (limit : ℚ) / (window : ℚ) := by
    rw [mul_div_assoc]
    have h1 : (0 : ℚ) ≤ nowMs - redisStoredLast stored nowMs := by linarith
    exact mul_nonneg (by positivity) hrate
  have hx0 : (0 : ℚ) ≤ min (redisStoredTokens stored burst
      + (nowMs - redisStoredLast stored nowMs) / 1000 * (limit : ℚ) / (window : ℚ))
      (burst : ℚ) := le_min (by linarith) hburstq
  have hxb : min (redisStoredTokens stored burst
      + (nowMs - redisStoredLast stored nowMs) / 1000 * (limit : ℚ) / (window : ℚ))
      (burst : ℚ) ≤ (burst : ℚ) := min_le_right _ _
  simp only [redisTBAllow]
  split
  · rename_i hall
    refine ⟨by dsimp only; linarith, by dsimp only; linarith⟩
  · exact ⟨hx0, hxb⟩

theorem swAllow_eq (cfg : Config) (st : SWState) (key : String) (cost : ℤ) (now : ℚ) :
    swAllow cfg st key cost now =
      if cfg.effLimit < ((swPurged cfg st key now).length : ℤ) + cost then
        (⟨false, max 0 (cfg.effLimit - ((swPurged cfg st key now).length : ℤ)), cfg.effLimit,
          swOldestReset cfg st key now, truncQ (swOldestReset cfg st key now - now)⟩,
         fun k => if k = key then some (swPurged cfg st key now) else st k)
      else
        (⟨true, cfg.effLimit - ((swPurged cfg st key now).length : ℤ) - cost, cfg.effLimit,
          now + cfg.effWindow, 0⟩,
         fun k => if k = key then some (swPurged cfg st key now
                    ++ List.replicate cost.toNat now) else st k) := rfl

/-- C1 counterexample: under `{limit:5, window:60 s, burst:5}`, a fresh
cost-1 admit at `t = 0` leaves `tokens = 4` but reports
`reset_at = now − 36 s`, whereas the claim's formula
`now + ⌈(B − tokens)/r⌉` with `B = max(burst, limit)` gives `now + 12`. -/
theorem claim_C1_counterexample :
    (tbAllow cfg5 (fun _ => none) "k" 1 0).1.remaining = 4 ∧
    (tbAllow cfg5 (fun _ => none) "k" 1 0).1.resetTime = -36 ∧
    ((0 : ℚ) + ((⌈(((max (5 : ℤ) 5 : ℤ) : ℚ) - 4) / ((5 : ℚ) / 60)⌉ : ℤ) : ℚ)) = 12 ∧
    ((-36 : ℚ)) ≠ 12 := by
  refine ⟨?_, ?_, ?_, by norm_num⟩
  · norm_num [tbAllow, cfg5, Config.effBurst, Config.effLimit, Config.effWindow,
      Config.refillPerSec, truncQ, min_def, Int.floor_eq_iff]
  · norm_num [tbAllow, cfg5, Config.effBurst, Config.effLimit, Config.effWindow,
      Config.refillPerSec, truncQ, min_def, Int.ceil_eq_iff, Int.floor_eq_iff,
      Int.ceil_neg, Int.floor_ofNat, Int.floor_intCast, Int.ceil_intCast]
  · norm_num [Int.ceil_eq_iff]

/-- C1 (amended): the token-bucket limiter reports
`reset_at = now + trunc((cost − tokens)/r)` seconds on admit — `tokens`
being the post-operation count — and
`reset_at = now + trunc((limit − tokens)/r)` on quota and on the basic
limiter's admit; none of these is the time to full refill
`now + ⌈(B − tokens)/r⌉`. -/
theorem claim_C1_amended (cfg : Config) (st : TBState) (key : String) (cost : ℤ) (now : ℚ) :
    (tbAllow cfg st key cost now).1.resetTime
      = now + ((truncQ (((cost : ℚ) - tbPostTokens cfg st key cost now)
          / cfg.refillPerSec) : ℤ) : ℚ) ∧
    (tbGetQuota cfg st key now).1.resetTime
      = now + ((truncQ (((cfg.effLimit : ℚ) - tbRefilled cfg st key now)
          / cfg.refillPerSec) : ℤ) : ℚ) ∧
    (basicAllow cfg st key cost now).1.resetTime
      = now + ((truncQ (((cfg.effLimit : ℚ)
          - tbPostTokens cfg st (if key = "" then "default" else key) cost now)
          / cfg.refillPerSec) : ℤ) : ℚ) := by
  refine ⟨?_, ?_, ?_⟩
  · rw [tbAllow_fst]
  · simp [tbGetQuota, tbRefilled]
  · by_cases h : (cost : ℚ) ≤ tbRefilled cfg st (if key = "" then "default" else key) now
    · simp [basicAllow, tbRefilled, tbPostTokens, h] at h ⊢
    · simp [basicAllow, tbRefilled, tbPostTokens, h] at h ⊢

/-- C2 counterexample: in scenario S2 (`{limit:5, window:60 s, burst:5}`,
bucket emptied at `t = 0`, cost-1 admit at `t = 0.5 s`, post-refill
`tokens = 1/24`), the code denies with `retry_after_s = 11`
(truncation of 11.5), while the claim's `⌈(c − tokens)/r⌉` gives 12. -/
theorem claim_C2_counterexample :
    tbRun cfg5 (fun _ => none)
        (List.replicate 5 (TBOp.allow "k" 1 0)) "k" = some ⟨0, 0⟩ ∧
    tbRefilled cfg5 stEmptied "k" (1/2) = 1/24 ∧
    (tbAllow cfg5 stEmptied "k" 1 (1/2)).1.allowed = false ∧
    (tbAllow cfg5 stEmptied "k" 1 (1/2)).1.retryAfterSeconds = 11 ∧
    (⌈(((1 : ℚ) - 1/24) / ((5 : ℚ) / 60))⌉ : ℤ) = 12 ∧ (11 : ℤ) ≠ 12 := by
  refine ⟨?_, ?_, ?_, ?_, ?_, by norm_num⟩
  · norm_num [tbRun, tbExec, tbAllow, cfg5, Config.effBurst, Config.effLimit,
      Config.effWindow, Config.refillPerSec, truncQ, min_def]
  · norm_num [tbRefilled, stEmptied, cfg5, Config.effBurst, Config.effLimit,
      Config.effWindow, Config.refillPerSec, min_def]
  · norm_num [tbAllow, stEmptied, cfg5, Config.effBurst, Config.effLimit,
      Config.effWindow, Config.refillPerSec, min_def]
  · norm_num [tbAllow, stEmptied, cfg5, Config.effBurst, Config.effLimit,
      Config.effWindow, Config.refillPerSec, truncQ, min_def,
      Int.floor_eq_iff, Int.ceil_eq_iff]
  · norm_num [Int.ceil_eq_iff]

/-- C2 (amended): every denied token-bucket admit reports
`retry_after_s = trunc((c − tokens)/r)` — floor, not ceiling — with
`tokens` the post-refill count; in scenario S2 this yields 11, not 12. -/
theorem claim_C2_amended (cfg : Config) (st : TBState) (key : String) (cost : ℤ) (now : ℚ)
    (hdenied : (tbAllow cfg st key cost now).1.allowed = false) :
    (tbAllow cfg st key cost now).1.retryAfterSeconds
      = truncQ (((cost : ℚ) - tbPostTokens cfg st key cost now) / cfg.refillPerSec) := by
  rw [tbAllow_fst] at hdenied ⊢
  simp only [decide_eq_false_iff_not] at hdenied
  simp [hdenied]

/-- Witness for the amended C2 at the S2 input. -/
theorem claim_C2_amended_witness :
    (tbAllow cfg5 stEmptied "k" 1 (1/2)).1.allowed = false ∧
    (tbAllow cfg5 stEmptied "k" 1 (1/2)).1.retryAfterSeconds
      = truncQ ((((1 : ℤ) : ℚ) - tbPostTokens cfg5 stEmptied "k" 1 (1/2))
          / cfg5.refillPerSec) := by
  have hden : (tbAllow cfg5 stEmptied "k" 1 (1/2)).1.allowed = false := by
    norm_num [tbAllow, stEmptied, cfg5, Config.effBurst, Config.effLimit,
      Config.effWindow, Config.refillPerSec, min_def]
  exact ⟨hden, claim_C2_amended cfg5 stEmptied "k" 1 (1/2) hden⟩

/-- C3 counterexample: `{limit:1, window:60 s}` with one event at `t = 0`;
a cost-1 admit at `t = 0.5 s` is denied with `reset_at = 60` and
`retry_after_s = 59` (truncation of 59.5), while the claim's
`⌈reset_at − now⌉` gives 60. -/
theorem claim_C3_counterexample :
    (swAllow cfgSW stSW "k" 1 (1/2)).1.allowed = false ∧
    (swAllow cfgSW stSW "k" 1 (1/2)).1.resetTime = 60 ∧
    (swAllow cfgSW stSW "k" 1 (1/2)).1.retryAfterSeconds = 59 ∧
    (⌈((60 : ℚ) - 1/2)⌉ : ℤ) = 60 ∧ (59 : ℤ) ≠ 60 := by
  refine ⟨?_, ?_, ?_, by norm_num [Int.ceil_eq_iff], by norm_num⟩ <;>
    norm_num [swAllow, cfgSW, stSW, Config.effLimit, Config.effWindow, truncQ,
      Int.ceil_eq_iff, Int.floor_eq_iff, List.filter]

/-- C3 (amended): after purging entries `≤ now − window`, the sliding-window
admit allows iff `|E| + c ≤ limit`, appending `c` copies of `now` and
reporting `remaining = limit − |E|` (post-append) with
`reset_at = now + window`; otherwise it denies with
`remaining = max(0, limit − |E|)`, `reset_at` the oldest retained entry
(the minimum, for histories with non-decreasing timestamps) plus `window`
— `now + window` when empty — and `retry_after_s = trunc(reset_at − now)`
(floor, not the claimed ceiling). -/
theorem claim_C3_amended (cfg : Config) (st : SWState) (key : String) (cost : ℤ) (now : ℚ)
    (hsorted : ((st key).getD []).Sorted (· ≤ ·)) :
    (((swPurged cfg st key now).length : ℤ) + cost ≤ cfg.effLimit →
      (swAllow cfg st key cost now).1
          = ⟨true, cfg.effLimit - ((swPurged cfg st key now).length : ℤ) - cost,
             cfg.effLimit, now + cfg.effWindow, 0⟩ ∧
      (swAllow cfg st key cost now).2 key
          = some (swPurged cfg st key now ++ List.replicate cost.toNat now)) ∧
    (cfg.effLimit < ((swPurged cfg st key now).length : ℤ) + cost →
      (swAllow cfg st key cost now).1.allowed = false ∧
      (swAllow cfg st key cost now).1.remaining
          = max 0 (cfg.effLimit - ((swPurged cfg st key now).length : ℤ)) ∧
      (swPurged cfg st key now = [] →
        (swAllow cfg st key cost now).1.resetTime = now + cfg.effWindow) ∧
      (∀ m rest, swPurged cfg st key now = m :: rest →
        (swAllow cfg st key cost now).1.resetTime = m + cfg.effWindow ∧
        ∀ t ∈ swPurged cfg st key now, m ≤ t) ∧
      (swAllow cfg st key cost now).1.retryAfterSeconds
          = truncQ ((swAllow cfg st key cost now).1.resetTime - now) ∧
      (swAllow cfg st key cost now).2 key = some (swPurged cfg st key now)) := by
  have hsorted' : (swPurged cfg st key now).Sorted (· ≤ ·) :=
    List.Pairwise.sublist (List.filter_sublist _) hsorted
  constructor
  · intro hle
    rw [swAllow_eq, if_neg (not_lt.mpr hle)]
    exact ⟨rfl, by simp⟩
  · intro hlt
    rw [swAllow_eq, if_pos hlt]
    refine ⟨rfl, rfl, ?_, ?_, rfl, by simp⟩
    · intro hE
      simp [swOldestReset, hE]
    · intro m rest hE
      constructor
      · simp [swOldestReset, hE]
      · intro t ht
        rw [hE] at ht hsorted'
        rcases List.mem_cons.mp ht with h | h
        · exact le_of_eq h.symm
        · exact (List.pairwise_cons.mp hsorted').1 t h

/-- Witness for the amended C3 at the counterexample input (sorted
single-event history, deny branch). -/
theorem claim_C3_amended_witness :
    cfgSW.effLimit < ((swPurged cfgSW stSW "k" (1/2)).length : ℤ) + 1 ∧
    (swAllow cfgSW stSW "k" 1 (1/2)).1.allowed = false := by
  have hs : ((stSW "k").getD []).Sorted (· ≤ ·) := by
    simp [stSW]
  have hlt : cfgSW.effLimit < ((swPurged cfgSW stSW "k" (1/2)).length : ℤ) + 1 := by
    norm_num [swPurged, stSW, cfgSW, Config.effLimit, Config.effWindow, List.filter]
  exact ⟨hlt, ((claim_C3_amended cfgSW stSW "k" 1 (1/2) hs).2 hlt).1⟩

/-- C4 counterexample: the colon-composition of the Decision Key triple is
not injective — `(a, b:c, d)` and `(a:b, c, d)` are distinct triples with
the same composed identifier, and an admit under the first writes the
bucket read under the second. -/
theorem claim_C4_counterexample :
    composeKey "a" "b:c" "d" = composeKey "a:b" "c" "d" ∧
    (("a", "b:c", "d") : String × String × String) ≠ ("a:b", "c", "d") ∧
    (tbAllow gatewayCfg (fun _ => none) (composeKey "a" "b:c" "d") 1 0).2
        (composeKey "a:b" "c" "d") ≠ none := by
  refine ⟨by decide, by decide, ?_⟩
  simp +decide [tbAllow, composeKey]

/-- C4 (amended): distinct composed key strings are fully isolated — an
admit or quota under one key never alters the stored state of another, in
both limiters — but the gateway's colon-join of `(tenant, resource,
api_key)` is not injective, so distinct triples whose components contain
`:` can collide and then share a bucket. -/
theorem claim_C4_amended (cfg : Config) (stT : TBState) (stS : SWState)
    (k1 k2 : String) (c : ℤ) (now : ℚ) (h : k1 ≠ k2) :
    (tbAllow cfg stT k1 c now).2 k2 = stT k2 ∧
    (tbGetQuota cfg stT k1 now).2 k2 = stT k2 ∧
    (swAllow cfg stS k1 c now).2 k2 = stS k2 := by
  have h2 : k2 ≠ k1 := Ne.symm h
  refine ⟨?_, ?_, ?_⟩
  · rw [tbAllow_snd]
    simp [h2]
  · rw [tbGetQuota_snd]
    simp [h2]
  · rw [swAllow_eq]
    split <;> simp [h2]

/-- Witness for the amended C4 at distinct concrete keys. -/
theorem claim_C4_amended_witness :
    ("a" : String) ≠ "b" ∧
    (tbAllow gatewayCfg (fun _ => none) "a" 1 0).2 "b" = (fun _ => none : TBState) "b" := by
  have h : ("a" : String) ≠ "b" := by decide
  exact ⟨h, (claim_C4_amended gatewayCfg (fun _ => none) (fun _ => none) "a" "b" 1 0 h).1⟩

/-- C5 is violated by the code (code bug): in strong mode the admit path
still runs the in-memory limiter and never touches the Shared Store —
whether the store is up or down, a fresh valid admit is answered 200/allow
from local state and the local bucket is charged, instead of the mandated
`ServiceDegraded` fail-closed behavior. The server's own startup log
("Using Redis-based rate limiting (strong mode)") contradicts this. -/
theorem claim_C5_code_bug : ∀ up : Bool,
    (handleAllow ⟨"strong", up, fun _ => none⟩ ⟨"t", "test-key", "", "", ""⟩ 0).1
      = .ok 99 100 (-58) ∧
    (HttpResponse.ok 99 100 (-58)).status = 200 ∧
    (handleAllow ⟨"strong", up, fun _ => none⟩ ⟨"t", "test-key", "", "", ""⟩ 0).2.state
        (composeKey "t" "default" "test-key") = some ⟨99, 0⟩ := by
  intro up
  refine ⟨?_, rfl, ?_⟩ <;>
  · simp +decide only [handleAllow, parseCost, validApiKey, composeKey]
    norm_num [tbAllow, gatewayCfg, Config.effBurst, Config.effLimit, Config.effWindow,
      Config.refillPerSec, truncQ, min_def, Int.ceil_eq_iff, Int.floor_eq_iff,
      Int.ceil_neg, Int.floor_ofNat, Int.floor_intCast, Int.ceil_intCast]

/-- C6: starting from any well-formed bucket map, every sequence of
admits/quotas with non-negative costs and non-decreasing timestamps keeps
`0 ≤ tokens ≤ burst` for every stored bucket; `last_refill` never
decreases across an operation; a local admit writes
`last_refill = now` even when denied; and the scripted Redis path likewise
writes `last_refill = now` on both branches and keeps
`0 ≤ tokens ≤ burst`. -/
theorem claim_C6 (cfg : Config) (t0 : ℚ) (st : TBState)
    (hWF : tbWF cfg.effBurst t0 st) :
    (∀ ops, opsOK t0 ops →
       tbWF cfg.effBurst (opsEnd t0 ops) (tbRun cfg st ops)) ∧
    (∀ op, t0 ≤ op.time → op.costOK →
       ∀ k b b', st k = some b → tbExec cfg st op k = some b' →
         b.lastRefill ≤ b'.lastRefill) ∧
    (∀ key cost now, (tbAllow cfg st key cost now).2 key
       = some ⟨tbPostTokens cfg st key cost now, now⟩) ∧
    (∀ stored nowMs limit window cost burst,
       ((redisTBAllow stored nowMs limit window cost burst).2).lastRefill = nowMs) ∧
    (∀ stored nowMs limit window cost burst,
       0 < limit → 0 < window → 0 ≤ cost → 0 ≤ burst →
       (∀ b, stored = some b → 0 ≤ b.tokens ∧ b.lastRefill ≤ nowMs) →
       0 ≤ ((redisTBAllow stored nowMs limit window cost burst).2).tokens ∧
         ((redisTBAllow stored nowMs limit window cost burst).2).tokens ≤ (burst : ℚ)) := by
  refine ⟨fun ops h => tbWF_run cfg ops t0 st hWF h,
    fun op ht _ => tbExec_lastRefill_mono cfg t0 st op hWF ht,
    fun key cost now => ?_,
    fun stored nowMs limit window cost burst =>
      redisTBAllow_lastRefill stored nowMs limit window cost burst,
    fun stored nowMs limit window cost burst h1 h2 h3 h4 h5 =>
      redisTBAllow_tokens_bounds stored nowMs limit window cost burst h1 h2 h3 h4 h5⟩
  rw [tbAllow_snd]
  simp

/-- Witness for C6: the empty map is well-formed at `t = 0` and stays
well-formed through a concrete admit-then-quota run. -/
theorem claim_C6_witness :
    tbWF cfg5.effBurst 0 (fun _ => none) ∧
    opsOK 0 [TBOp.allow "k" 1 0, TBOp.quota "k" (1/2)] ∧
    tbWF cfg5.effBurst (opsEnd 0 [TBOp.allow "k" 1 0, TBOp.quota "k" (1/2)])
      (tbRun cfg5 (fun _ => none) [TBOp.allow "k" 1 0, TBOp.quota "k" (1/2)]) := by
  have hWF : tbWF cfg5.effBurst 0 (fun _ => none) := by
    intro k b h
    simp at h
  have hops : opsOK 0 [TBOp.allow "k" 1 0, TBOp.quota "k" (1/2)] := by
    refine ⟨le_refl _, by norm_num [TBOp.costOK], ?_, trivial, trivial⟩
    norm_num [TBOp.time]
  exact ⟨hWF, hops, (claim_C6 cfg5 0 (fun _ => none) hWF).1 _ hops⟩

/-- C7 counterexample: a zero-cost admit does mutate the stored bucket —
from `⟨tokens 0, last_refill 0⟩` at `t = 30` it stores
`⟨tokens 5/2, last_refill 30⟩` (the refill is applied and the stamp
advances), so the stored fields are not "the same as if the call had not
happened". -/
theorem claim_C7_counterexample :
    stEmptied "k" = some ⟨0, 0⟩ ∧
    (tbAllow cfg5 stEmptied "k" 0 30).2 "k" = some ⟨5/2, 30⟩ ∧
    (tbAllow cfg5 stEmptied "k" 0 30).2 "k" ≠ stEmptied "k" := by
  refine ⟨by simp [stEmptied], ?_, ?_⟩ <;>
    norm_num [tbAllow, stEmptied, cfg5, Config.effBurst, Config.effLimit,
      Config.effWindow, Config.refillPerSec, min_def]

/-- C7 (amended): a zero-cost admit on a well-formed bucket is always
allowed and charges nothing; its only mutation is the refill every
operation performs (tokens topped up, `last_refill := now`) — the same
write a read-only quota makes — and it is observationally neutral: any
later admit returns exactly the result and state it would have returned
had the zero-cost call not happened. -/
theorem claim_C7_amended (cfg : Config) (st : TBState) (key : String) (c : ℤ) (t1 t2 : ℚ)
    (hb : ∀ b, st key = some b → 0 ≤ b.tokens ∧ b.lastRefill ≤ t1) (h12 : t1 ≤ t2) :
    (tbAllow cfg st key 0 t1).1.allowed = true ∧
    (tbAllow cfg st key 0 t1).2 key = some ⟨tbRefilled cfg st key t1, t1⟩ ∧
    (tbAllow cfg st key 0 t1).2 = (tbGetQuota cfg st key t1).2 ∧
    tbAllow cfg ((tbAllow cfg st key 0 t1).2) key c t2 = tbAllow cfg st key c t2 := by
  have h0 := tbRefilled_nonneg cfg st key t1 hb
  refine ⟨?_, ?_, ?_, tbAllow_after_zero_probe cfg st key c t1 t2 h12⟩
  · rw [tbAllow_fst]
    simp [h0]
  · rw [tbAllow_snd]
    simp [tbPostTokens_zero]
  · rw [tbAllow_snd, tbGetQuota_snd, tbPostTokens_zero]

/-- Witness for the amended C7 on the emptied bucket at `t₁ = 30`,
`t₂ = 40`. -/
theorem claim_C7_amended_witness :
    (∀ b, stEmptied "k" = some b → 0 ≤ b.tokens ∧ b.lastRefill ≤ 30) ∧
    (tbAllow cfg5 stEmptied "k" 0 30).1.allowed = true ∧
    tbAllow cfg5 ((tbAllow cfg5 stEmptied "k" 0 30).2) "k" 1 40
      = tbAllow cfg5 stEmptied "k" 1 40 := by
  have hb : ∀ b, stEmptied "k" = some b → 0 ≤ b.tokens ∧ b.lastRefill ≤ 30 := by
    intro b h
    simp [stEmptied] at h
    rw [← h]
    norm_num
  have h := claim_C7_amended cfg5 stEmptied "k" 1 30 40 hb (by norm_num)
  exact ⟨hb, h.1, h.2.2.2⟩

/-- C8: a negative-cost admit on an otherwise valid request is rejected by
the gateway's cost validation with `invalid cost parameter`
(InvalidRequest) before any limiter runs, leaving the server — in
particular every bucket — untouched. -/
theorem claim_C8 (s : Server) (req : AllowRequest) (now : ℚ) (n : ℤ)
    (ht : req.tenant ≠ "")
    (hk : validApiKey (if req.headerApiKey = "" then req.queryApiKey
            else req.headerApiKey) = true)
    (hc : atoi req.cost = some n) (hn : n < 0) :
    handleAllow s req now = (.badRequest "invalid cost parameter", s) := by
  have hne : (if req.headerApiKey = "" then req.queryApiKey else req.headerApiKey) ≠ "" := by
    intro h0
    rw [h0] at hk
    simp +decide [validApiKey] at hk
  have hcostne : req.cost ≠ "" := by
    intro h0
    rw [h0] at hc
    have hnone : atoi "" = none := by decide
    rw [hnone] at hc
    exact Option.noConfusion hc
  have hp : parseCost req.cost = none := by
    rw [parseCost, if_neg hcostne, hc]
    simp only []
    rw [if_neg (by omega : ¬ 0 < n)]
  simp [handleAllow, hp, ht, hne, hk]

/-- Witness for C8 at `cost = "-5"`. -/
theorem claim_C8_witness :
    atoi "-5" = some (-5) ∧
    handleAllow srv0 ⟨"t", "test-key", "", "", "-5"⟩ 0
      = (.badRequest "invalid cost parameter", srv0) := by
  refine ⟨by decide, ?_⟩
  exact claim_C8 srv0 ⟨"t", "test-key", "", "", "-5"⟩ 0 (-5)
    (by decide) (by decide) (by decide) (by decide)

/-- C9 counterexample: a non-empty api key outside the permitted set is
answered 401 Unauthorized ("Invalid API key") — the same status kind as the
missing-credential response — not 403 Forbidden. -/
theorem claim_C9_counterexample :
    (handleAllow srv0 ⟨"t", "bad-key", "", "", ""⟩ 0).1
      = .unauthorized "Invalid API key" ∧
    (handleAllow srv0 ⟨"t", "", "", "", ""⟩ 0).1
      = .unauthorized "API key required" ∧
    (handleAllow srv0 ⟨"t", "bad-key", "", "", ""⟩ 0).1.status
      = (handleAllow srv0 ⟨"t", "", "", "", ""⟩ 0).1.status ∧
    (handleAllow srv0 ⟨"t", "bad-key", "", "", ""⟩ 0).1.status ≠ 403 := by
  have h1 : (handleAllow srv0 ⟨"t", "bad-key", "", "", ""⟩ 0).1
      = .unauthorized "Invalid API key" := by
    simp +decide [handleAllow, validApiKey]
  have h2 : (handleAllow srv0 ⟨"t", "", "", "", ""⟩ 0).1
      = .unauthorized "API key required" := by
    simp +decide [handleAllow]
  refine ⟨h1, h2, ?_, ?_⟩
  · rw [h1, h2]
    rfl
  · rw [h1]
    simp [HttpResponse.status]

/-- C9 (amended): a request with a resolved, non-empty api key outside the
hard-coded permitted set {test-key, demo-key, admin-key} gets HTTP 401
Unauthorized with body "Invalid API key" and no state change — the same
status code as the missing-credential rejection, distinguished only by the
message; no Forbidden (403) kind exists in the gateway. -/
theorem claim_C9_amended (s : Server) (req : AllowRequest) (now : ℚ)
    (ht : req.tenant ≠ "")
    (hne : (if req.headerApiKey = "" then req.queryApiKey
             else req.headerApiKey) ≠ "")
    (hbad : validApiKey (if req.headerApiKey = "" then req.queryApiKey
              else req.headerApiKey) = false) :
    handleAllow s req now = (.unauthorized "Invalid API key", s) ∧
    (handleAllow s req now).1.status = 401 := by
  have h : handleAllow s req now = (.unauthorized "Invalid API key", s) := by
    simp [handleAllow, ht, hne, hbad]
  refine ⟨h, ?_⟩
  rw [h]
  simp [HttpResponse.status]

/-- Witness for the amended C9 at api key `"bad-key"`. -/
theorem claim_C9_amended_witness :
    validApiKey "bad-key" = false ∧
    handleAllow srv0 ⟨"t", "bad-key", "", "", ""⟩ 0
      = (.unauthorized "Invalid API key", srv0) := by
  refine ⟨by decide, ?_⟩
  exact (claim_C9_amended srv0 ⟨"t", "bad-key", "", "", ""⟩ 0
    (by decide) (by decide) (by decide)).1

/-- C10: `LocalManager.ForTenant` and `LocalManager.GetLimiter` return the
single limiter stored at construction regardless of tenant or resource,
and the gateway's manager holds the token-bucket engine built from the
process-wide default policy `{limit:100, burst:100, window:60 s}` — so
per-(tenant, resource) policies never select a different engine. -/
theorem claim_C10 :
    (∀ (m : LocalManager) (t1 t2 r1 r2 : String),
       m.ForTenant t1 = m.ForTenant t2 ∧
       m.GetLimiter t1 r1 = m.GetLimiter t2 r2 ∧
       m.ForTenant t1 = m.GetLimiter t2 r2) ∧
    (∀ t r : String,
       gatewayManager.ForTenant t = ⟨false, ⟨100, 100, 60, AlgoTokenBucket⟩⟩ ∧
       gatewayManager.GetLimiter t r = ⟨false, ⟨100, 100, 60, AlgoTokenBucket⟩⟩) := by
  refine ⟨fun m t1 t2 r1 r2 => ⟨rfl, rfl, rfl⟩, fun t r => ⟨?_, ?_⟩⟩ <;>
    simp +decide [gatewayManager, NewLocalManager, gatewayCfg,
      LocalManager.ForTenant, LocalManager.GetLimiter, AlgoTokenBucket, AlgoSlidingWindow]

end Helios
